import Mathlib

/-!
Shallow embedding of the persisted-state managers of the NoRisk client backend
(`src-tauri/src/state/config_state.rs` and `src-tauri/src/state/cape_state.rs`).

The JSON layer (serde_json) is modelled at the level of the JSON value tree:
serialization produces a `Json` value mirroring serde's derived encoding of the
concrete structs (field order, `Option` as `null`/value), and decoding mirrors
serde's derived decoder including the `#[serde(default)]` / `#[serde(default =
"…")]` attributes on individual fields.  `chrono::DateTime<Utc>` is modelled by
its serialized RFC3339 text (a `String`); its serde default `chrono::Utc::now`
is modelled by a `now : String` parameter threaded through the decoders.
`uuid::Uuid` is likewise modelled by its serialized text.

The filesystem is modelled by an explicit `Fs` state holding the backing file's
content (a decoded-or-not JSON tree, `none` when the path does not exist) plus
flags that make `read_to_string` / `create_dir_all`+`write` fail with an I/O
error.  Async, locks and logging are sequenced away: every manager operation is
a pure function from (in-memory document, file state) to an `Except` result,
exactly following the source's control flow.
-/

/-- A JSON value, as produced/consumed by serde_json. -/
inductive Json where
  | null
  | bool (b : Bool)
  | num (n : Int)
  | str (s : String)
  | arr (xs : List Json)
  | obj (fields : List (String × Json))

/-- First value bound to key `k` in a JSON object's field list
(serde reads the first occurrence of a field). -/
def Json.lookupField (fields : List (String × Json)) (k : String) : Option Json :=
  match fields with
  | [] => none
  | (k2, v) :: rest => if k2 = k then some v else Json.lookupField rest k

/-- serde decode of a `String` field. -/
def Json.asStr : Json → Option String
  | .str s => some s
  | _ => none

/-- serde decode of a `bool` field. -/
def Json.asBool : Json → Option Bool
  | .bool b => some b
  | _ => none

/-- serde decode of a `u32` field (rejects negatives and out-of-range). -/
def Json.asU32 : Json → Option Nat
  | .num n => if 0 ≤ n ∧ n < 4294967296 then some n.toNat else none
  | _ => none

/-- serde decode of a `usize` field (64-bit; rejects negatives and out-of-range). -/
def Json.asUsize : Json → Option Nat
  | .num n => if 0 ≤ n ∧ n < 18446744073709551616 then some n.toNat else none
  | _ => none

/-- serde's element-wise, fail-fast decode of a sequence. -/
def optionTraverse (f : α → Option β) : List α → Option (List β)
  | [] => some []
  | x :: xs => (f x).bind (fun y => (optionTraverse f xs).map (fun ys => y :: ys))

/-- serde decode of a `Vec<String>` field. -/
def decodeStringList : Json → Option (List String)
  | .arr xs => optionTraverse Json.asStr xs
  | _ => none

/-- serde encode of an `Option<String>`: `None` is `null`. -/
def encodeOptStr : Option String → Json
  | none => .null
  | some s => .str s

/-- serde decode of an `Option<String>` value that is present in the object. -/
def decodeOptStr : Json → Option (Option String)
  | .null => some none
  | .str s => some (some s)
  | _ => none

/-- `SavedCape` (cape_state.rs): one record of the local cape database. -/
structure SavedCape where
  id : String
  name : String
  favorite : Bool
  tags : List String
  /-- `chrono::DateTime<chrono::Utc>` modelled by its serialized text. -/
  added_at : String
  deriving DecidableEq

/-- `CapeDatabase` (cape_state.rs): container for all stored capes.
Its derived `Default` is the empty list. -/
structure CapeDatabase where
  capes : List SavedCape
  deriving DecidableEq

/-- `CapeDatabase::default()`. -/
def CapeDatabase.defaultDb : CapeDatabase := ⟨[]⟩

/-- serde encode of a `SavedCape` (derived `Serialize`, declaration field order). -/
def encodeSavedCape (c : SavedCape) : Json :=
  .obj [("id", .str c.id), ("name", .str c.name), ("favorite", .bool c.favorite),
        ("tags", .arr (c.tags.map Json.str)), ("added_at", .str c.added_at)]

/-- serde decode of a `SavedCape`: `favorite` defaults to `false`, `tags` to `[]`
(`#[serde(default)]`), `added_at` to the current time `now`
(`#[serde(default = "chrono::Utc::now")]`). -/
def decodeSavedCape (now : String) (j : Json) : Option SavedCape :=
  match j with
  | .obj fields => do
    let id ← (Json.lookupField fields "id").bind Json.asStr
    let name ← (Json.lookupField fields "name").bind Json.asStr
    let favorite ← match Json.lookupField fields "favorite" with
      | none => some false
      | some v => v.asBool
    let tags ← match Json.lookupField fields "tags" with
      | none => some []
      | some v => decodeStringList v
    let added_at ← match Json.lookupField fields "added_at" with
      | none => some now
      | some v => v.asStr
    some ⟨id, name, favorite, tags, added_at⟩
  | _ => none

/-- serde encode of a `CapeDatabase`. -/
def encodeCapeDatabase (db : CapeDatabase) : Json :=
  .obj [("capes", .arr (db.capes.map encodeSavedCape))]

/-- serde decode of a `CapeDatabase`: `capes` defaults to `[]` (`#[serde(default)]`). -/
def decodeCapeDatabase (now : String) (j : Json) : Option CapeDatabase :=
  match j with
  | .obj fields => do
    let capes ← match Json.lookupField fields "capes" with
      | none => some []
      | some (.arr xs) => optionTraverse (decodeSavedCape now) xs
      | some _ => none
    some ⟨capes⟩
  | _ => none

/-- `Hooks` (config_state.rs): game initialization hooks. -/
structure Hooks where
  pre_launch : Option String
  wrapper : Option String
  post_exit : Option String
  deriving DecidableEq

/-- `Hooks::default()`. -/
def Hooks.defaultHooks : Hooks := ⟨none, none, none⟩

/-- `LauncherConfig` (config_state.rs).  `u32` and `usize` fields are `Nat`
with range enforced at the serde boundary; `Uuid` is modelled by its
serialized text. -/
structure LauncherConfig where
  version : Nat
  is_experimental : Bool
  auto_check_updates : Bool
  concurrent_downloads : Nat
  enable_discord_presence : Bool
  check_beta_channel : Bool
  profile_grouping_criterion : Option String
  open_logs_after_starting : Bool
  concurrent_io_limit : Nat
  last_played_profile : Option String
  hooks : Hooks
  hide_on_process_start : Bool
  deriving DecidableEq

/-- `CONFIG_CURRENT_VERSION`. -/
def CONFIG_CURRENT_VERSION : Nat := 1

/-- `LauncherConfig::default()` (the hand-written `Default` impl). -/
def LauncherConfig.defaultConfig : LauncherConfig :=
  { version := CONFIG_CURRENT_VERSION
    is_experimental := false
    auto_check_updates := true
    concurrent_downloads := 5
    enable_discord_presence := true
    check_beta_channel := false
    profile_grouping_criterion := some "group"
    open_logs_after_starting := true
    concurrent_io_limit := 10
    last_played_profile := none
    hooks := Hooks.defaultHooks
    hide_on_process_start := false }

/-- A `LauncherConfig` value representable by the Rust struct: its `u32` and
`usize` fields are in range. -/
def LauncherConfig.Valid (c : LauncherConfig) : Prop :=
  c.version < 4294967296 ∧ c.concurrent_downloads < 18446744073709551616 ∧
    c.concurrent_io_limit < 18446744073709551616

/-- serde encode of `Hooks` (derived `Serialize`). -/
def encodeHooks (h : Hooks) : Json :=
  .obj [("pre_launch", encodeOptStr h.pre_launch), ("wrapper", encodeOptStr h.wrapper),
        ("post_exit", encodeOptStr h.post_exit)]

/-- serde decode of `Hooks`: each `Option` field is `None` when missing. -/
def decodeHooks (j : Json) : Option Hooks :=
  match j with
  | .obj fields => do
    let pre_launch ← match Json.lookupField fields "pre_launch" with
      | none => some none
      | some v => decodeOptStr v
    let wrapper ← match Json.lookupField fields "wrapper" with
      | none => some none
      | some v => decodeOptStr v
    let post_exit ← match Json.lookupField fields "post_exit" with
      | none => some none
      | some v => decodeOptStr v
    some ⟨pre_launch, wrapper, post_exit⟩
  | _ => none

/-- serde encode of a `LauncherConfig` (derived `Serialize`, declaration order). -/
def encodeLauncherConfig (c : LauncherConfig) : Json :=
  .obj [("version", .num (Int.ofNat c.version)),
        ("is_experimental", .bool c.is_experimental),
        ("auto_check_updates", .bool c.auto_check_updates),
        ("concurrent_downloads", .num (Int.ofNat c.concurrent_downloads)),
        ("enable_discord_presence", .bool c.enable_discord_presence),
        ("check_beta_channel", .bool c.check_beta_channel),
        ("profile_grouping_criterion", encodeOptStr c.profile_grouping_criterion),
        ("open_logs_after_starting", .bool c.open_logs_after_starting),
        ("concurrent_io_limit", .num (Int.ofNat c.concurrent_io_limit)),
        ("last_played_profile", encodeOptStr c.last_played_profile),
        ("hooks", encodeHooks c.hooks),
        ("hide_on_process_start", .bool c.hide_on_process_start)]

/-- serde decode of a `LauncherConfig` with its per-field serde defaults:
`version` defaults to `CONFIG_CURRENT_VERSION`, `concurrent_downloads` to `5`,
`enable_discord_presence` to `true`, `profile_grouping_criterion` to
`Some("group")`, `open_logs_after_starting` to `true`, `concurrent_io_limit`
to `10`, plain `#[serde(default)]` fields to their type defaults. -/
def decodeLauncherConfig (j : Json) : Option LauncherConfig :=
  match j with
  | .obj fields => do
    let version ← match Json.lookupField fields "version" with
      | none => some CONFIG_CURRENT_VERSION
      | some v => v.asU32
    let is_experimental ← match Json.lookupField fields "is_experimental" with
      | none => some false
      | some v => v.asBool
    let auto_check_updates ← match Json.lookupField fields "auto_check_updates" with
      | none => some false
      | some v => v.asBool
    let concurrent_downloads ← match Json.lookupField fields "concurrent_downloads" with
      | none => some 5
      | some v => v.asUsize
    let enable_discord_presence ← match Json.lookupField fields "enable_discord_presence" with
      | none => some true
      | some v => v.asBool
    let check_beta_channel ← match Json.lookupField fields "check_beta_channel" with
      | none => some false
      | some v => v.asBool
    let profile_grouping_criterion ← match Json.lookupField fields "profile_grouping_criterion" with
      | none => some (some "group")
      | some v => decodeOptStr v
    let open_logs_after_starting ← match Json.lookupField fields "open_logs_after_starting" with
      | none => some true
      | some v => v.asBool
    let concurrent_io_limit ← match Json.lookupField fields "concurrent_io_limit" with
      | none => some 10
      | some v => v.asUsize
    let last_played_profile ← match Json.lookupField fields "last_played_profile" with
      | none => some none
      | some v => decodeOptStr v
    let hooks ← match Json.lookupField fields "hooks" with
      | none => some Hooks.defaultHooks
      | some v => decodeHooks v
    let hide_on_process_start ← match Json.lookupField fields "hide_on_process_start" with
      | none => some false
      | some v => v.asBool
    some ⟨version, is_experimental, auto_check_updates, concurrent_downloads,
          enable_discord_presence, check_beta_channel, profile_grouping_criterion,
          open_logs_after_starting, concurrent_io_limit, last_played_profile,
          hooks, hide_on_process_start⟩
  | _ => none

/-- Error surfaced by manager operations (`crate::error::Error`); only the I/O
variant is reachable in the modelled code paths (serde_json serialization of
these types cannot fail). -/
inductive Err where
  | ioError
  deriving DecidableEq

/-- Filesystem state visible to one manager: the backing file's content (`none`
when the path does not exist) and fault flags for the two fallible syscalls. -/
structure Fs where
  /-- Content of the backing file; `none` means `path.exists()` is false. -/
  file : Option Json
  /-- When true, `fs::read_to_string` fails with an I/O error. -/
  readFails : Bool
  /-- When true, `fs::create_dir_all`/`fs::write` in the save path fails. -/
  writeFails : Bool

/-- Rust's `Iterator::position`: index of the first element satisfying `p`. -/
def listPosition (p : α → Bool) : List α → Option Nat
  | [] => none
  | x :: xs => if p x then some 0 else (listPosition p xs).map (· + 1)

/-- A throwaway record used only as the (unreachable) default of indexed access. -/
def SavedCape.dummy : SavedCape := ⟨"", "", false, [], ""⟩

/-- `CapeManager::save_capes`: serialize the current database and write it to
the backing path (creating parent directories), under the save lock. -/
def CapeManager.save_capes (db : CapeDatabase) (fs : Fs) : Except Err Fs :=
  if fs.writeFails then .error .ioError
  else .ok { fs with file := some (encodeCapeDatabase db) }

/-- `CapeManager::load_capes_internal`: if the file is absent, persist the
current (default) database; otherwise read it (propagating read errors with
`?`), decode it, and on decode failure persist the current database to repair
the file. -/
def CapeManager.load_capes_internal (now : String) (db : CapeDatabase) (fs : Fs) :
    Except Err (CapeDatabase × Fs) :=
  match fs.file with
  | none => (CapeManager.save_capes db fs).map (fun fs2 => (db, fs2))
  | some data =>
    if fs.readFails then .error .ioError
    else match decodeCapeDatabase now data with
      | some loaded => .ok (loaded, fs)
      | none => (CapeManager.save_capes db fs).map (fun fs2 => (db, fs2))

/-- `CapeManager::add_saved_cape`: upsert by `id` (replace in place at the first
matching position, else push), then save. -/
def CapeManager.add_saved_cape (cape : SavedCape) (db : CapeDatabase) (fs : Fs) :
    Except Err (CapeDatabase × Fs) :=
  let db2 : CapeDatabase :=
    match listPosition (fun s => s.id == cape.id) db.capes with
    | some index => ⟨db.capes.set index cape⟩
    | none => ⟨db.capes ++ [cape]⟩
  (CapeManager.save_capes db2 fs).map (fun fs2 => (db2, fs2))

/-- `CapeManager::remove_saved_cape`: retain records with a different `id`;
save only when something was removed; report whether anything was removed. -/
def CapeManager.remove_saved_cape (id : String) (db : CapeDatabase) (fs : Fs) :
    Except Err (Bool × CapeDatabase × Fs) :=
  let initial_len := db.capes.length
  let db2 : CapeDatabase := ⟨db.capes.filter (fun cape => cape.id != id)⟩
  let removed := db2.capes.length < initial_len
  if removed then
    (CapeManager.save_capes db2 fs).map (fun fs2 => (removed, db2, fs2))
  else
    .ok (removed, db2, fs)

/-- `CapeManager::update_saved_cape_properties`: per-field partial update of the
first record with the given `id`, then save; `Ok(None)` when absent. -/
def CapeManager.update_saved_cape_properties (id : String) (name : Option String)
    (favorite : Option Bool) (tags : Option (List String))
    (db : CapeDatabase) (fs : Fs) :
    Except Err (Option SavedCape × CapeDatabase × Fs) :=
  match listPosition (fun s => s.id == id) db.capes with
  | some index =>
    let old := db.capes.getD index SavedCape.dummy
    let updated_cape : SavedCape :=
      { old with
        name := name.getD old.name
        favorite := favorite.getD old.favorite
        tags := tags.getD old.tags }
    let db2 : CapeDatabase := ⟨db.capes.set index updated_cape⟩
    (CapeManager.save_capes db2 fs).map (fun fs2 => (some updated_cape, db2, fs2))
  | none => .ok (none, db, fs)

/-- `CapeManager::toggle_favorite`: flip `favorite` of the first record with the
given `id`, then save; `Ok(None)` when absent. -/
def CapeManager.toggle_favorite (id : String) (db : CapeDatabase) (fs : Fs) :
    Except Err (Option SavedCape × CapeDatabase × Fs) :=
  match listPosition (fun s => s.id == id) db.capes with
  | some index =>
    let old := db.capes.getD index SavedCape.dummy
    let updated_cape : SavedCape := { old with favorite := !old.favorite }
    let db2 : CapeDatabase := ⟨db.capes.set index updated_cape⟩
    (CapeManager.save_capes db2 fs).map (fun fs2 => (some updated_cape, db2, fs2))
  | none => .ok (none, db, fs)

/-- `CapeManager::add_tag_to_cape`: push the tag onto the first record with the
given `id` unless already present, then save; `Ok(None)` when absent. -/
def CapeManager.add_tag_to_cape (id : String) (tag : String)
    (db : CapeDatabase) (fs : Fs) :
    Except Err (Option SavedCape × CapeDatabase × Fs) :=
  match listPosition (fun s => s.id == id) db.capes with
  | some index =>
    let old := db.capes.getD index SavedCape.dummy
    let updated_cape : SavedCape :=
      if !(old.tags.any (fun t => t == tag)) then { old with tags := old.tags ++ [tag] }
      else old
    let db2 : CapeDatabase := ⟨db.capes.set index updated_cape⟩
    (CapeManager.save_capes db2 fs).map (fun fs2 => (some updated_cape, db2, fs2))
  | none => .ok (none, db, fs)

/-- `CapeManager::remove_tag_from_cape`: retain the tags different from the
given one on the first record with the given `id`, then save; `Ok(None)` when
absent. -/
def CapeManager.remove_tag_from_cape (id : String) (tag : String)
    (db : CapeDatabase) (fs : Fs) :
    Except Err (Option SavedCape × CapeDatabase × Fs) :=
  match listPosition (fun s => s.id == id) db.capes with
  | some index =>
    let old := db.capes.getD index SavedCape.dummy
    let updated_cape : SavedCape := { old with tags := old.tags.filter (fun t => t != tag) }
    let db2 : CapeDatabase := ⟨db.capes.set index updated_cape⟩
    (CapeManager.save_capes db2 fs).map (fun fs2 => (some updated_cape, db2, fs2))
  | none => .ok (none, db, fs)

/-- `ConfigManager::save_config`: serialize the current configuration and write
it to the backing path (creating parent directories), under the save lock. -/
def ConfigManager.save_config (config : LauncherConfig) (fs : Fs) : Except Err Fs :=
  if fs.writeFails then .error .ioError
  else .ok { fs with file := some (encodeLauncherConfig config) }

/-- `ConfigManager::load_config_internal`: same shape as the cape load — absent
file persists the current (default) config, read errors propagate with `?`,
decode failure persists the current config to repair the file. -/
def ConfigManager.load_config_internal (config : LauncherConfig) (fs : Fs) :
    Except Err (LauncherConfig × Fs) :=
  match fs.file with
  | none => (ConfigManager.save_config config fs).map (fun fs2 => (config, fs2))
  | some data =>
    if fs.readFails then .error .ioError
    else match decodeLauncherConfig data with
      | some loaded => .ok (loaded, fs)
      | none => (ConfigManager.save_config config fs).map (fun fs2 => (config, fs2))

/-- The field-by-field change-detection comparison in `ConfigManager::set_config`
(every serialized field except `version`). -/
def comparedFieldsEqual (current new_config : LauncherConfig) : Prop :=
  current.is_experimental = new_config.is_experimental ∧
  current.auto_check_updates = new_config.auto_check_updates ∧
  current.concurrent_downloads = new_config.concurrent_downloads ∧
  current.enable_discord_presence = new_config.enable_discord_presence ∧
  current.check_beta_channel = new_config.check_beta_channel ∧
  current.profile_grouping_criterion = new_config.profile_grouping_criterion ∧
  current.open_logs_after_starting = new_config.open_logs_after_starting ∧
  current.concurrent_io_limit = new_config.concurrent_io_limit ∧
  current.last_played_profile = new_config.last_played_profile ∧
  current.hooks = new_config.hooks ∧
  current.hide_on_process_start = new_config.hide_on_process_start

instance (a b : LauncherConfig) : Decidable (comparedFieldsEqual a b) := by
  unfold comparedFieldsEqual; infer_instance

/-- `ConfigManager::set_config`: skip the save when no compared field changed;
otherwise replace the stored config, carrying over the stored `version`, and
save.  The returned `Bool` is `should_save` (whether a file write happened);
the Discord presence callout is best-effort and does not affect the result. -/
def ConfigManager.set_config (current new_config : LauncherConfig) (fs : Fs) :
    Except Err (LauncherConfig × Fs × Bool) :=
  if comparedFieldsEqual current new_config then
    .ok (current, fs, false)
  else
    let updated := { new_config with version := current.version }
    (ConfigManager.save_config updated fs).map (fun fs2 => (updated, fs2, true))

/-! ### Serialization round-trip lemmas -/

theorem traverse_asStr_map_str (xs : List String) :
    optionTraverse Json.asStr (xs.map Json.str) = some xs := by
  induction xs with
  | nil => rfl
  | cons x xs ih => simp [optionTraverse, Json.asStr, ih]

theorem decode_encode_savedCape (now : String) (c : SavedCape) :
    decodeSavedCape now (encodeSavedCape c) = some c := by
  simp [decodeSavedCape, encodeSavedCape, Json.lookupField, Json.asStr, Json.asBool,
        decodeStringList, traverse_asStr_map_str]

theorem traverse_decode_encode_capes (now : String) (capes : List SavedCape) :
    optionTraverse (decodeSavedCape now) (capes.map encodeSavedCape) = some capes := by
  induction capes with
  | nil => rfl
  | cons c cs ih => simp [optionTraverse, decode_encode_savedCape, ih]

theorem decode_encode_capeDatabase (now : String) (db : CapeDatabase) :
    decodeCapeDatabase now (encodeCapeDatabase db) = some db := by
  simp [decodeCapeDatabase, encodeCapeDatabase, Json.lookupField, traverse_decode_encode_capes]

theorem decodeOptStr_encodeOptStr (o : Option String) :
    decodeOptStr (encodeOptStr o) = some o := by
  cases o <;> rfl

theorem decode_encode_hooks (h : Hooks) :
    decodeHooks (encodeHooks h) = some h := by
  simp [decodeHooks, encodeHooks, Json.lookupField, decodeOptStr_encodeOptStr]

theorem asU32_ofNat (v : Nat) (h : v < 4294967296) :
    Json.asU32 (.num (v : Int)) = some v := by
  simp only [Json.asU32, Int.ofNat_eq_natCast]
  split
  · simp
  · omega

theorem asUsize_ofNat (v : Nat) (h : v < 18446744073709551616) :
    Json.asUsize (.num (v : Int)) = some v := by
  simp only [Json.asUsize, Int.ofNat_eq_natCast]
  split
  · simp
  · omega

set_option maxRecDepth 4096 in
theorem decode_encode_launcherConfig (c : LauncherConfig) (h : c.Valid) :
    decodeLauncherConfig (encodeLauncherConfig c) = some c := by
  obtain ⟨h1, h2, h3⟩ := h
  simp [decodeLauncherConfig, encodeLauncherConfig, Json.lookupField, Json.asBool,
        decodeOptStr_encodeOptStr, decode_encode_hooks,
        asU32_ofNat c.version h1, asUsize_ofNat c.concurrent_downloads h2,
        asUsize_ofNat c.concurrent_io_limit h3]

/-! ### `listPosition` and list helpers -/

theorem listPosition_eq_none_iff (p : α → Bool) (l : List α) :
    listPosition p l = none ↔ ∀ x ∈ l, p x = false := by
  induction l with
  | nil => simp [listPosition]
  | cons x xs ih =>
    cases hx : p x with
    | true => simp [listPosition, hx]
    | false => simp [listPosition, hx, ih]

theorem listPosition_some_lt (p : α → Bool) :
    ∀ (l : List α) (i : Nat), listPosition p l = some i → i < l.length := by
  intro l
  induction l with
  | nil => intro i h; simp [listPosition] at h
  | cons x xs ih =>
    intro i h
    cases hx : p x with
    | true =>
      rw [listPosition, hx, if_pos rfl] at h
      cases h
      simp
    | false =>
      rw [listPosition, hx, if_neg (by simp)] at h
      rw [Option.map_eq_some'] at h
      obtain ⟨j, hj, rfl⟩ := h
      have := ih j hj
      simp
      omega

theorem listPosition_some_get? (p : α → Bool) :
    ∀ (l : List α) (i : Nat), listPosition p l = some i →
      ∃ x, l.get? i = some x ∧ p x = true := by
  intro l
  induction l with
  | nil => intro i h; simp [listPosition] at h
  | cons x xs ih =>
    intro i h
    cases hx : p x with
    | true =>
      rw [listPosition, hx, if_pos rfl] at h
      cases h
      exact ⟨x, rfl, hx⟩
    | false =>
      rw [listPosition, hx, if_neg (by simp)] at h
      rw [Option.map_eq_some'] at h
      obtain ⟨j, hj, rfl⟩ := h
      simpa using ih j hj

theorem listPosition_some_before (p : α → Bool) :
    ∀ (l : List α) (i : Nat), listPosition p l = some i →
      ∀ j, j < i → ∀ y, l.get? j = some y → p y = false := by
  intro l
  induction l with
  | nil => intro i h; simp [listPosition] at h
  | cons x xs ih =>
    intro i h j hj y hy
    cases hx : p x with
    | true =>
      rw [listPosition, hx, if_pos rfl] at h
      cases h
      omega
    | false =>
      rw [listPosition, hx, if_neg (by simp)] at h
      rw [Option.map_eq_some'] at h
      obtain ⟨k, hk, rfl⟩ := h
      cases j with
      | zero => cases hy; exact hx
      | succ j2 => exact ih k hk j2 (by omega) y hy

theorem listPosition_eq_some (p : α → Bool) :
    ∀ (l : List α) (i : Nat) (x : α), l.get? i = some x → p x = true →
      (∀ j, j < i → ∀ y, l.get? j = some y → p y = false) →
      listPosition p l = some i := by
  intro l
  induction l with
  | nil => intro i x hx; simp at hx
  | cons z zs ih =>
    intro i x hx hpx hbefore
    cases i with
    | zero =>
      cases hx
      rw [listPosition, hpx, if_pos rfl]
    | succ k =>
      have hz : p z = false := hbefore 0 (by omega) z rfl
      rw [listPosition, hz, if_neg (by simp)]
      rw [ih k x hx hpx (fun j hj y hy => hbefore (j + 1) (by omega) y hy)]
      rfl

theorem getD_eq_of_get? : ∀ (l : List α) (i : Nat) (d x : α),
    l.get? i = some x → l.getD i d = x := by
  intro l
  induction l with
  | nil => intro i d x h; simp at h
  | cons z zs ih =>
    intro i d x h
    cases i with
    | zero => cases h; rfl
    | succ k => exact ih k d x h

theorem set_of_get? : ∀ (l : List α) (i : Nat) (x : α),
    l.get? i = some x → l.set i x = l := by
  intro l
  induction l with
  | nil => intro i x h; simp at h
  | cons z zs ih =>
    intro i x h
    cases i with
    | zero => cases h; rfl
    | succ k => simpa [List.set] using ih k x h

theorem nodup_append_singleton {l : List α} {x : α} (h : l.Nodup) (hx : x ∉ l) :
    (l ++ [x]).Nodup := by
  simp [List.nodup_append, h, hx]

/-! ### Claim theorems -/

/-- C1: for a freshly constructed manager (in-memory document = default) whose
backing file holds content that fails that manager's own decode, one load step
returns success, keeps the default document in memory, and rewrites the
backing file with the serialized default document, which is never the corrupt
content.  Each manager's conclusion needs only its own decode to fail. -/
theorem C1_corrupt_file_self_heal (now : String) (fs : Fs) (j : Json)
    (hfile : fs.file = some j) (hr : fs.readFails = false) (hw : fs.writeFails = false) :
    (decodeCapeDatabase now j = none →
      CapeManager.load_capes_internal now CapeDatabase.defaultDb fs =
        .ok (CapeDatabase.defaultDb,
          { fs with file := some (encodeCapeDatabase CapeDatabase.defaultDb) }) ∧
      encodeCapeDatabase CapeDatabase.defaultDb ≠ j) ∧
    (decodeLauncherConfig j = none →
      ConfigManager.load_config_internal LauncherConfig.defaultConfig fs =
        .ok (LauncherConfig.defaultConfig,
          { fs with file := some (encodeLauncherConfig LauncherConfig.defaultConfig) }) ∧
      encodeLauncherConfig LauncherConfig.defaultConfig ≠ j) := by
  refine ⟨fun hcape => ⟨?_, ?_⟩, fun hconf => ⟨?_, ?_⟩⟩
  · simp [CapeManager.load_capes_internal, CapeManager.save_capes, hfile, hr, hw, hcape, Except.map]
  · intro h
    rw [← h, decode_encode_capeDatabase] at hcape
    exact Option.noConfusion hcape
  · simp [ConfigManager.load_config_internal, ConfigManager.save_config, hfile, hr, hw, hconf, Except.map]
  · intro h
    rw [← h, decode_encode_launcherConfig LauncherConfig.defaultConfig (by exact ⟨by decide, by decide, by decide⟩)] at hconf
    exact Option.noConfusion hconf

/-- Witness for C1 at one-sided corrupt contents: a cape file whose capes
field is the number 0 (corrupt only for the CapeManager — it decodes as a
LauncherConfig with every field defaulted) and a config file whose version
field is a string (corrupt only for the ConfigManager — it decodes as a
CapeDatabase). -/
theorem C1_corrupt_file_self_heal_witness :
    (CapeManager.load_capes_internal "t" CapeDatabase.defaultDb
        ⟨some (Json.obj [("capes", Json.num 0)]), false, false⟩ =
        .ok (CapeDatabase.defaultDb,
          ⟨some (encodeCapeDatabase CapeDatabase.defaultDb), false, false⟩) ∧
      encodeCapeDatabase CapeDatabase.defaultDb ≠ Json.obj [("capes", Json.num 0)]) ∧
    (ConfigManager.load_config_internal LauncherConfig.defaultConfig
        ⟨some (Json.obj [("version", Json.str "x")]), false, false⟩ =
        .ok (LauncherConfig.defaultConfig,
          ⟨some (encodeLauncherConfig LauncherConfig.defaultConfig), false, false⟩) ∧
      encodeLauncherConfig LauncherConfig.defaultConfig ≠ Json.obj [("version", Json.str "x")]) :=
  ⟨(C1_corrupt_file_self_heal "t" ⟨some (Json.obj [("capes", Json.num 0)]), false, false⟩
      (Json.obj [("capes", Json.num 0)]) rfl rfl rfl).1 rfl,
   (C1_corrupt_file_self_heal "t" ⟨some (Json.obj [("version", Json.str "x")]), false, false⟩
      (Json.obj [("version", Json.str "x")]) rfl rfl rfl).2 rfl⟩

/-- C2: for a freshly constructed manager (in-memory document = default) whose
backing file does not exist, one load step returns success, keeps the default
document in memory, and writes the serialized default document to the file. -/
theorem C2_load_absent_file (now : String) (fs : Fs)
    (hfile : fs.file = none) (hw : fs.writeFails = false) :
    CapeManager.load_capes_internal now CapeDatabase.defaultDb fs =
      .ok (CapeDatabase.defaultDb,
        { fs with file := some (encodeCapeDatabase CapeDatabase.defaultDb) }) ∧
    ConfigManager.load_config_internal LauncherConfig.defaultConfig fs =
      .ok (LauncherConfig.defaultConfig,
        { fs with file := some (encodeLauncherConfig LauncherConfig.defaultConfig) }) := by
  constructor
  · simp [CapeManager.load_capes_internal, CapeManager.save_capes, hfile, hw, Except.map]
  · simp [ConfigManager.load_config_internal, ConfigManager.save_config, hfile, hw, Except.map]

/-- Witness for C2 on an absent file. -/
theorem C2_load_absent_file_witness :
    CapeManager.load_capes_internal "t" CapeDatabase.defaultDb ⟨none, false, false⟩ =
      .ok (CapeDatabase.defaultDb,
        ⟨some (encodeCapeDatabase CapeDatabase.defaultDb), false, false⟩) ∧
    ConfigManager.load_config_internal LauncherConfig.defaultConfig ⟨none, false, false⟩ =
      .ok (LauncherConfig.defaultConfig,
        ⟨some (encodeLauncherConfig LauncherConfig.defaultConfig), false, false⟩) :=
  C2_load_absent_file "t" ⟨none, false, false⟩ rfl rfl

/-- C3 counterexample: with the backing file present and the read failing with
an I/O error, the load step of both managers surfaces the I/O error to the
caller instead of returning success. -/
theorem C3_counterexample :
    CapeManager.load_capes_internal "t" CapeDatabase.defaultDb ⟨some Json.null, true, false⟩
      = .error .ioError ∧
    ConfigManager.load_config_internal LauncherConfig.defaultConfig ⟨some Json.null, true, false⟩
      = .error .ioError := by
  constructor <;> rfl

/-- C3 (amended): if the backing file exists but reading it during the load
step fails with an I/O error, the load step propagates that I/O error to the
caller (the `?` on `read_to_string`); the fall-back-and-re-persist recovery
applies only to decode failures, not to read I/O errors. -/
theorem C3_read_error_propagates (now : String) (db : CapeDatabase)
    (cfg : LauncherConfig) (fs : Fs) (hfile : fs.file.isSome = true)
    (hr : fs.readFails = true) :
    CapeManager.load_capes_internal now db fs = .error .ioError ∧
    ConfigManager.load_config_internal cfg fs = .error .ioError := by
  obtain ⟨j, hj⟩ := Option.isSome_iff_exists.mp hfile
  constructor
  · simp [CapeManager.load_capes_internal, hj, hr]
  · simp [ConfigManager.load_config_internal, hj, hr]

/-- Witness for the amended C3. -/
theorem C3_read_error_propagates_witness :
    CapeManager.load_capes_internal "u" CapeDatabase.defaultDb ⟨some (Json.str "x"), true, true⟩
      = .error .ioError ∧
    ConfigManager.load_config_internal LauncherConfig.defaultConfig ⟨some (Json.str "x"), true, true⟩
      = .error .ioError :=
  C3_read_error_propagates "u" CapeDatabase.defaultDb LauncherConfig.defaultConfig
    ⟨some (Json.str "x"), true, true⟩ rfl rfl

/-- C4: for every valid document, setting the in-memory document to it,
persisting, and then running the load step on the resulting file yields that
same document in memory (for either manager, from any pre-load in-memory
document). -/
theorem C4_roundtrip (now : String) (V : CapeDatabase) (W : LauncherConfig)
    (hW : W.Valid) (fs : Fs) (hr : fs.readFails = false) (hw : fs.writeFails = false) :
    (∀ db0, (CapeManager.save_capes V fs).bind
        (fun fs2 => CapeManager.load_capes_internal now db0 fs2) =
        .ok (V, { fs with file := some (encodeCapeDatabase V) })) ∧
    (∀ cfg0, (ConfigManager.save_config W fs).bind
        (fun fs2 => ConfigManager.load_config_internal cfg0 fs2) =
        .ok (W, { fs with file := some (encodeLauncherConfig W) })) := by
  constructor
  · intro db0
    simp [CapeManager.save_capes, hw, CapeManager.load_capes_internal, hr,
          Except.bind, decode_encode_capeDatabase]
  · intro cfg0
    simp [ConfigManager.save_config, hw, ConfigManager.load_config_internal, hr,
          Except.bind, decode_encode_launcherConfig W hW]

/-- Witness for C4 at a one-record cape database and the default config. -/
theorem C4_roundtrip_witness :
    (CapeManager.save_capes ⟨[⟨"a", "Cape A", true, ["x"], "2024-01-01"⟩]⟩
        ⟨none, false, false⟩).bind
      (fun fs2 => CapeManager.load_capes_internal "t" CapeDatabase.defaultDb fs2) =
      .ok (⟨[⟨"a", "Cape A", true, ["x"], "2024-01-01"⟩]⟩,
        ⟨some (encodeCapeDatabase ⟨[⟨"a", "Cape A", true, ["x"], "2024-01-01"⟩]⟩), false, false⟩) ∧
    (ConfigManager.save_config LauncherConfig.defaultConfig ⟨none, false, false⟩).bind
      (fun fs2 => ConfigManager.load_config_internal LauncherConfig.defaultConfig fs2) =
      .ok (LauncherConfig.defaultConfig,
        ⟨some (encodeLauncherConfig LauncherConfig.defaultConfig), false, false⟩) :=
  ⟨(C4_roundtrip "t" ⟨[⟨"a", "Cape A", true, ["x"], "2024-01-01"⟩]⟩ LauncherConfig.defaultConfig
      ⟨by decide, by decide, by decide⟩ ⟨none, false, false⟩ rfl rfl).1 CapeDatabase.defaultDb,
   (C4_roundtrip "t" ⟨[⟨"a", "Cape A", true, ["x"], "2024-01-01"⟩]⟩ LauncherConfig.defaultConfig
      ⟨by decide, by decide, by decide⟩ ⟨none, false, false⟩ rfl rfl).2 LauncherConfig.defaultConfig⟩

theorem get?_set_self : ∀ (l : List α) (i : Nat) (x : α), i < l.length →
    (l.set i x).get? i = some x := by
  intro l
  induction l with
  | nil => intro i x h; simp at h
  | cons z zs ih =>
    intro i x h
    cases i with
    | zero => rfl
    | succ k => exact ih k x (by simpa using h)

theorem get?_set_ne : ∀ (l : List α) (i : Nat) (x : α) (j : Nat), j ≠ i →
    (l.set i x).get? j = l.get? j := by
  intro l
  induction l with
  | nil => intro i x j h; rfl
  | cons z zs ih =>
    intro i x j h
    cases i with
    | zero => cases j with
      | zero => exact absurd rfl h
      | succ k => rfl
    | succ i2 => cases j with
      | zero => rfl
      | succ k => exact ih i2 x k (by omega)

/-- C5: `add_saved_cape c` upserts by id.  If the first record with id `c.id`
sits at position `i`, it is replaced in place by `c` (length unchanged, `c`
observed at `i`, every other position unchanged); if no record has that id,
`c` is appended and the length grows by one.  Either way the result is saved. -/
theorem C5_add_saved_cape_upsert (c : SavedCape) (db : CapeDatabase) (fs : Fs)
    (hw : fs.writeFails = false) :
    (∀ i x, db.capes.get? i = some x → x.id = c.id →
      (∀ j, j < i → ∀ y, db.capes.get? j = some y → y.id ≠ c.id) →
      CapeManager.add_saved_cape c db fs =
        .ok (⟨db.capes.set i c⟩,
          { fs with file := some (encodeCapeDatabase ⟨db.capes.set i c⟩) }) ∧
      (db.capes.set i c).length = db.capes.length ∧
      (db.capes.set i c).get? i = some c ∧
      ∀ j, j ≠ i → (db.capes.set i c).get? j = db.capes.get? j) ∧
    ((∀ x ∈ db.capes, x.id ≠ c.id) →
      CapeManager.add_saved_cape c db fs =
        .ok (⟨db.capes ++ [c]⟩,
          { fs with file := some (encodeCapeDatabase ⟨db.capes ++ [c]⟩) }) ∧
      (db.capes ++ [c]).length = db.capes.length + 1) := by
  constructor
  · intro i x hx hid hbefore
    have hpos : listPosition (fun s => s.id == c.id) db.capes = some i := by
      refine listPosition_eq_some _ db.capes i x hx (by simp [hid]) ?_
      intro j hj y hy
      simpa using hbefore j hj y hy
    have hlt : i < db.capes.length := listPosition_some_lt _ db.capes i hpos
    refine ⟨?_, by simp, get?_set_self db.capes i c hlt, fun j hj => get?_set_ne db.capes i c j hj⟩
    simp [CapeManager.add_saved_cape, hpos, CapeManager.save_capes, hw, Except.map]
  · intro habsent
    have hpos : listPosition (fun s => s.id == c.id) db.capes = none := by
      rw [listPosition_eq_none_iff]
      intro x hx
      simpa using habsent x hx
    refine ⟨?_, by simp⟩
    simp [CapeManager.add_saved_cape, hpos, CapeManager.save_capes, hw, Except.map]

/-- Witness for C5: replace branch at position 0 of a two-record database. -/
theorem C5_add_saved_cape_upsert_witness :
    (CapeManager.add_saved_cape ⟨"a", "New", true, ["y"], "2024-02-02"⟩
        ⟨[⟨"a", "Old", false, [], "2024-01-01"⟩, ⟨"b", "Keep", false, [], "2024-01-01"⟩]⟩
        ⟨none, false, false⟩ =
      .ok (⟨[⟨"a", "Old", false, [], "2024-01-01"⟩, ⟨"b", "Keep", false, [], "2024-01-01"⟩].set 0
              ⟨"a", "New", true, ["y"], "2024-02-02"⟩⟩,
        ⟨some (encodeCapeDatabase
            ⟨[⟨"a", "Old", false, [], "2024-01-01"⟩, ⟨"b", "Keep", false, [], "2024-01-01"⟩].set 0
              ⟨"a", "New", true, ["y"], "2024-02-02"⟩⟩), false, false⟩)) ∧
    ([⟨"a", "Old", false, [], "2024-01-01"⟩, ⟨"b", "Keep", false, [], "2024-01-01"⟩].set 0
        (⟨"a", "New", true, ["y"], "2024-02-02"⟩ : SavedCape)).length = 2 :=
  by
  have h := (C5_add_saved_cape_upsert ⟨"a", "New", true, ["y"], "2024-02-02"⟩
      ⟨[⟨"a", "Old", false, [], "2024-01-01"⟩, ⟨"b", "Keep", false, [], "2024-01-01"⟩]⟩
      ⟨none, false, false⟩ rfl).1 0 ⟨"a", "Old", false, [], "2024-01-01"⟩ rfl rfl
      (fun j hj y _ _ => absurd hj (by omega))
  exact ⟨h.1, h.2.1⟩

/-- C6: every `set_config` call that returns successfully leaves the stored
configuration's `version` equal to the stored `version` from before the call,
whatever `version` the caller supplied. -/
theorem C6_set_config_preserves_version (current new_config : LauncherConfig) (fs : Fs)
    (result : LauncherConfig × Fs × Bool)
    (h : ConfigManager.set_config current new_config fs = .ok result) :
    result.1.version = current.version := by
  unfold ConfigManager.set_config at h
  split at h
  · cases h; rfl
  · unfold ConfigManager.save_config at h
    by_cases hw : fs.writeFails = true
    · simp [hw, Except.map] at h
    · simp only [Bool.not_eq_true] at hw
      simp [hw, Except.map] at h
      rw [← h]

/-- Witness for C6: the caller supplies version 99; the stored version 1 survives. -/
theorem C6_set_config_preserves_version_witness :
    (({ LauncherConfig.defaultConfig with is_experimental := true },
        (⟨some (encodeLauncherConfig
          { LauncherConfig.defaultConfig with is_experimental := true }), false,
          false⟩ : Fs), true) : LauncherConfig × Fs × Bool).1.version =
      LauncherConfig.defaultConfig.version :=
  C6_set_config_preserves_version LauncherConfig.defaultConfig
    { LauncherConfig.defaultConfig with is_experimental := true, version := 99 }
    ⟨none, false, false⟩
    ({ LauncherConfig.defaultConfig with is_experimental := true },
      ⟨some (encodeLauncherConfig
        { LauncherConfig.defaultConfig with is_experimental := true }), false,
        false⟩, true)
    rfl

/-- C7: `set_config` with every compared field equal to the stored value is a
no-op — no file write happens (`should_save = false`, filesystem unchanged) and
the stored document, `version` included, is returned unchanged. -/
theorem C7_set_config_noop (current new_config : LauncherConfig) (fs : Fs)
    (h : comparedFieldsEqual current new_config) :
    ConfigManager.set_config current new_config fs = .ok (current, fs, false) := by
  unfold ConfigManager.set_config
  rw [if_pos h]

/-- Witness for C7: only the (uncompared) `version` field differs. -/
theorem C7_set_config_noop_witness :
    ConfigManager.set_config LauncherConfig.defaultConfig
      { LauncherConfig.defaultConfig with version := 42 } ⟨none, false, true⟩ =
      .ok (LauncherConfig.defaultConfig, ⟨none, false, true⟩, false) :=
  C7_set_config_noop LauncherConfig.defaultConfig
    { LauncherConfig.defaultConfig with version := 42 } ⟨none, false, true⟩
    ⟨rfl, rfl, rfl, rfl, rfl, rfl, rfl, rfl, rfl, rfl, rfl⟩

/-- C8: for a cape present at first-match position `i` whose tags hold no
occurrence of `t`: adding tag `t` twice succeeds and leaves that cape's tags
containing `t` exactly once (the second add is a no-op on the record); and
removing the absent tag `t` returns the record unchanged and leaves the
document unchanged (a no-op result, not an error). -/
theorem C8_tag_idempotence (id t : String) (db : CapeDatabase) (fs : Fs)
    (hw : fs.writeFails = false) :
    (∀ i x, db.capes.get? i = some x → x.id = id →
      (∀ j, j < i → ∀ y, db.capes.get? j = some y → y.id ≠ id) →
      t ∉ x.tags →
      ∃ c1 db1 fs1 c2 db2 fs2,
        CapeManager.add_tag_to_cape id t db fs = .ok (some c1, db1, fs1) ∧
        CapeManager.add_tag_to_cape id t db1 fs1 = .ok (some c2, db2, fs2) ∧
        c2 = c1 ∧
        c2.tags.count t = 1 ∧
        db2.capes.get? i = some c2) ∧
    (∀ i x, db.capes.get? i = some x → x.id = id →
      (∀ j, j < i → ∀ y, db.capes.get? j = some y → y.id ≠ id) →
      t ∉ x.tags →
      CapeManager.remove_tag_from_cape id t db fs =
        .ok (some x, db, { fs with file := some (encodeCapeDatabase db) })) := by
  constructor
  · intro i x hx hid hbefore ht
    have hpos : listPosition (fun s => s.id == id) db.capes = some i := by
      refine listPosition_eq_some _ db.capes i x hx (by simp [hid]) ?_
      intro j hj y hy
      simpa using hbefore j hj y hy
    have hlt : i < db.capes.length := listPosition_some_lt _ db.capes i hpos
    have hx2 : db.capes[i]? = some x := by rw [← List.get?_eq_getElem?]; exact hx
    have ht2 : ∀ s ∈ x.tags, ¬ s = t := fun s hs heq => ht (heq ▸ hs)
    set c1 : SavedCape := { x with tags := x.tags ++ [t] } with hc1
    have hcall1 : CapeManager.add_tag_to_cape id t db fs =
        .ok (some c1, ⟨db.capes.set i c1⟩,
          { fs with file := some (encodeCapeDatabase ⟨db.capes.set i c1⟩) }) := by
      simp [CapeManager.add_tag_to_cape, hpos, hx2, ht2, CapeManager.save_capes, hw,
        Except.map, hc1]
      refine ⟨fun hmem => absurd hmem ht, ?_, ?_⟩ <;> rw [if_pos ht2]
    have hget1 : (db.capes.set i c1).get? i = some c1 := get?_set_self db.capes i c1 hlt
    have hget1e : (db.capes.set i c1)[i]? = some c1 := by
      rw [← List.get?_eq_getElem?]; exact hget1
    have hpos1 : listPosition (fun s => s.id == id) (db.capes.set i c1) = some i := by
      refine listPosition_eq_some _ _ i c1 hget1 (by simp [hc1, hid]) ?_
      intro j hj y hy
      rw [get?_set_ne db.capes i c1 j (by omega)] at hy
      simpa using hbefore j hj y hy
    have hset1 : (db.capes.set i c1).set i c1 = db.capes.set i c1 :=
      set_of_get? _ i c1 hget1
    refine ⟨c1, ⟨db.capes.set i c1⟩,
      { fs with file := some (encodeCapeDatabase ⟨db.capes.set i c1⟩) },
      c1, ⟨db.capes.set i c1⟩,
      { fs with file := some (encodeCapeDatabase ⟨db.capes.set i c1⟩) },
      hcall1, ?_, rfl, ?_, hget1⟩
    · simp [CapeManager.add_tag_to_cape, hpos1, hget1e, hc1, CapeManager.save_capes, hw,
        Except.map, hset1]
    · have hcount : x.tags.count t = 0 := List.count_eq_zero.mpr ht
      simp [hc1, List.count_append, hcount]
  · intro i x hx hid hbefore ht
    have hpos : listPosition (fun s => s.id == id) db.capes = some i := by
      refine listPosition_eq_some _ db.capes i x hx (by simp [hid]) ?_
      intro j hj y hy
      simpa using hbefore j hj y hy
    have hx2 : db.capes[i]? = some x := by rw [← List.get?_eq_getElem?]; exact hx
    have hfilter : x.tags.filter (fun s => s != t) = x.tags := by
      rw [List.filter_eq_self]
      intro a ha
      simp only [bne_iff_ne, ne_eq]
      intro h
      exact ht (h ▸ ha)
    have hset : db.capes.set i x = db.capes := set_of_get? db.capes i x hx
    simp [CapeManager.remove_tag_from_cape, hpos, hx2, hfilter, hset,
      CapeManager.save_capes, hw, Except.map]

/-- Witness for C8 at a single-record database without the tag "x". -/
theorem C8_tag_idempotence_witness :
    (∃ c1 db1 fs1 c2 db2 fs2,
      CapeManager.add_tag_to_cape "a" "x" ⟨[⟨"a", "A", false, ["y"], "d"⟩]⟩ ⟨none, false, false⟩ =
        .ok (some c1, db1, fs1) ∧
      CapeManager.add_tag_to_cape "a" "x" db1 fs1 = .ok (some c2, db2, fs2) ∧
      c2 = c1 ∧
      c2.tags.count "x" = 1 ∧
      db2.capes.get? 0 = some c2) ∧
    CapeManager.remove_tag_from_cape "a" "x" ⟨[⟨"a", "A", false, ["y"], "d"⟩]⟩ ⟨none, false, false⟩ =
      .ok (some ⟨"a", "A", false, ["y"], "d"⟩, ⟨[⟨"a", "A", false, ["y"], "d"⟩]⟩,
        ⟨some (encodeCapeDatabase ⟨[⟨"a", "A", false, ["y"], "d"⟩]⟩), false, false⟩) :=
  ⟨(C8_tag_idempotence "a" "x" ⟨[⟨"a", "A", false, ["y"], "d"⟩]⟩ ⟨none, false, false⟩ rfl).1
      0 ⟨"a", "A", false, ["y"], "d"⟩ rfl rfl (fun j hj y _ _ => absurd hj (by omega))
      (by decide),
   (C8_tag_idempotence "a" "x" ⟨[⟨"a", "A", false, ["y"], "d"⟩]⟩ ⟨none, false, false⟩ rfl).2
      0 ⟨"a", "A", false, ["y"], "d"⟩ rfl rfl (fun j hj y _ _ => absurd hj (by omega))
      (by decide)⟩

theorem mem_of_get? : ∀ (l : List α) (i : Nat) (x : α), l.get? i = some x → x ∈ l := by
  intro l
  induction l with
  | nil => intro i x h; simp at h
  | cons z zs ih =>
    intro i x h
    cases i with
    | zero => cases h; exact List.mem_cons_self z zs
    | succ k => exact List.mem_cons_of_mem z (ih k x h)

theorem mem_set_cases : ∀ (l : List α) (i : Nat) (v x : α), x ∈ l.set i v → x ∈ l ∨ x = v := by
  intro l
  induction l with
  | nil => intro i v x h; simp at h
  | cons z zs ih =>
    intro i v x h
    cases i with
    | zero =>
      rcases List.mem_cons.mp h with h | h
      · exact Or.inr h
      · exact Or.inl (List.mem_cons_of_mem z h)
    | succ k =>
      rcases List.mem_cons.mp h with h | h
      · exact Or.inl (h ▸ List.mem_cons_self z zs)
      · rcases ih k v x h with h | h
        · exact Or.inl (List.mem_cons_of_mem z h)
        · exact Or.inr h

/-- The per-record invariant from the data model: no saved cape's tag sequence
holds a duplicate entry. -/
def TagsNodup (db : CapeDatabase) : Prop := ∀ c ∈ db.capes, c.tags.Nodup

theorem tagsNodup_set (db : CapeDatabase) (i : Nat) (u : SavedCape)
    (hdb : TagsNodup db) (hu : u.tags.Nodup) : TagsNodup ⟨db.capes.set i u⟩ := by
  intro c hc
  rcases mem_set_cases db.capes i u c hc with h | h
  · exact hdb c h
  · subst h; exact hu

/-- C9 counterexample: starting from a database satisfying the
no-duplicate-tags invariant, `update_saved_cape_properties` stores the
caller-supplied tag list `["x", "x"]` verbatim, leaving a record whose tags
hold a duplicate — the operation does not deduplicate caller input. -/
theorem C9_counterexample :
    (([] : List String).Nodup ∧
      CapeManager.update_saved_cape_properties "a" none none (some ["x", "x"])
        ⟨[⟨"a", "A", false, [], "d"⟩]⟩ ⟨none, false, false⟩ =
        .ok (some ⟨"a", "A", false, ["x", "x"], "d"⟩,
          ⟨[⟨"a", "A", false, ["x", "x"], "d"⟩]⟩,
          ⟨some (encodeCapeDatabase ⟨[⟨"a", "A", false, ["x", "x"], "d"⟩]⟩), false, false⟩) ∧
      ¬ (["x", "x"] : List String).Nodup) ∧
    (CapeManager.add_saved_cape ⟨"b", "B", false, ["y", "y"], "d"⟩
        ⟨[]⟩ ⟨none, false, false⟩ =
        .ok (⟨[⟨"b", "B", false, ["y", "y"], "d"⟩]⟩,
          ⟨some (encodeCapeDatabase ⟨[⟨"b", "B", false, ["y", "y"], "d"⟩]⟩), false, false⟩) ∧
      ¬ (["y", "y"] : List String).Nodup) :=
  ⟨⟨by decide, rfl, by decide⟩, rfl, by decide⟩

/-- C9 (amended): the CapeManager mutations preserve the no-duplicate-tags
invariant provided every caller-supplied tag list (the new cape's `tags` for
`add_saved_cape`, the `tags` argument for `update_saved_cape_properties`) is
itself duplicate-free; `toggle_favorite`, `add_tag_to_cape` and
`remove_tag_from_cape` preserve it for every caller input.  (As originally
stated — for every input — the claim fails: the first two operations store
caller-supplied duplicates verbatim, see the counterexample.) -/
theorem C9_mutations_preserve_tagsNodup (db : CapeDatabase) (fs : Fs)
    (hdb : TagsNodup db) :
    (∀ cape db2 fs2, cape.tags.Nodup →
      CapeManager.add_saved_cape cape db fs = .ok (db2, fs2) → TagsNodup db2) ∧
    (∀ id name favorite tags r db2 fs2, (∀ ts, tags = some ts → List.Nodup ts) →
      CapeManager.update_saved_cape_properties id name favorite tags db fs =
        .ok (r, db2, fs2) → TagsNodup db2) ∧
    (∀ id r db2 fs2,
      CapeManager.toggle_favorite id db fs = .ok (r, db2, fs2) → TagsNodup db2) ∧
    (∀ id t r db2 fs2,
      CapeManager.add_tag_to_cape id t db fs = .ok (r, db2, fs2) → TagsNodup db2) ∧
    (∀ id t r db2 fs2,
      CapeManager.remove_tag_from_cape id t db fs = .ok (r, db2, fs2) → TagsNodup db2) := by
  have hwcase : ∀ (P : Prop), (fs.writeFails = false → P) → (fs.writeFails = true → P) → P := by
    intro P h1 h2
    cases hw : fs.writeFails with
    | false => exact h1 hw
    | true => exact h2 hw
  refine ⟨?_, ?_, ?_, ?_, ?_⟩
  · intro cape db2 fs2 hcape h
    refine hwcase _ (fun hw => ?_) (fun hw => ?_)
    · cases hpos : listPosition (fun s => s.id == cape.id) db.capes with
      | some i =>
        unfold CapeManager.add_saved_cape CapeManager.save_capes at h
        rw [hpos] at h
        simp [hw, Except.map] at h
        obtain ⟨h1, -⟩ := h
        subst h1
        exact tagsNodup_set db i cape hdb hcape
      | none =>
        unfold CapeManager.add_saved_cape CapeManager.save_capes at h
        rw [hpos] at h
        simp [hw, Except.map] at h
        obtain ⟨h1, -⟩ := h
        subst h1
        intro c hc
        rcases List.mem_append.mp hc with hmem | hmem
        · exact hdb c hmem
        · rw [List.mem_singleton.mp hmem]
          exact hcape
    · unfold CapeManager.add_saved_cape CapeManager.save_capes at h
      simp [hw, Except.map] at h
  · intro id name favorite tags r db2 fs2 htags h
    refine hwcase _ (fun hw => ?_) (fun hw => ?_)
    · cases hpos : listPosition (fun s => s.id == id) db.capes with
      | some i =>
        obtain ⟨x, hx, -⟩ := listPosition_some_get? _ db.capes i hpos
        have hx2 : db.capes[i]? = some x := by rw [← List.get?_eq_getElem?]; exact hx
        have hxmem : x ∈ db.capes := mem_of_get? db.capes i x hx
        unfold CapeManager.update_saved_cape_properties CapeManager.save_capes at h
        rw [hpos] at h
        simp [hw, hx2, Except.map] at h
        obtain ⟨-, h1, -⟩ := h
        subst h1
        refine tagsNodup_set db i _ hdb ?_
        cases tags with
        | none => simpa using hdb x hxmem
        | some ts => simpa using htags ts rfl
      | none =>
        unfold CapeManager.update_saved_cape_properties at h
        rw [hpos] at h
        simp at h
        obtain ⟨-, h1, -⟩ := h
        subst h1
        exact hdb
    · cases hpos : listPosition (fun s => s.id == id) db.capes with
      | some i =>
        unfold CapeManager.update_saved_cape_properties CapeManager.save_capes at h
        rw [hpos] at h
        simp [hw, Except.map] at h
      | none =>
        unfold CapeManager.update_saved_cape_properties at h
        rw [hpos] at h
        simp at h
        obtain ⟨-, h1, -⟩ := h
        subst h1
        exact hdb
  · intro id r db2 fs2 h
    refine hwcase _ (fun hw => ?_) (fun hw => ?_)
    · cases hpos : listPosition (fun s => s.id == id) db.capes with
      | some i =>
        obtain ⟨x, hx, -⟩ := listPosition_some_get? _ db.capes i hpos
        have hx2 : db.capes[i]? = some x := by rw [← List.get?_eq_getElem?]; exact hx
        have hxmem : x ∈ db.capes := mem_of_get? db.capes i x hx
        unfold CapeManager.toggle_favorite CapeManager.save_capes at h
        rw [hpos] at h
        simp [hw, hx2, Except.map] at h
        obtain ⟨-, h1, -⟩ := h
        subst h1
        exact tagsNodup_set db i _ hdb (by simpa using hdb x hxmem)
      | none =>
        unfold CapeManager.toggle_favorite at h
        rw [hpos] at h
        simp at h
        obtain ⟨-, h1, -⟩ := h
        subst h1
        exact hdb
    · cases hpos : listPosition (fun s => s.id == id) db.capes with
      | some i =>
        unfold CapeManager.toggle_favorite CapeManager.save_capes at h
        rw [hpos] at h
        simp [hw, Except.map] at h
      | none =>
        unfold CapeManager.toggle_favorite at h
        rw [hpos] at h
        simp at h
        obtain ⟨-, h1, -⟩ := h
        subst h1
        exact hdb
  · intro id t r db2 fs2 h
    refine hwcase _ (fun hw => ?_) (fun hw => ?_)
    · cases hpos : listPosition (fun s => s.id == id) db.capes with
      | some i =>
        obtain ⟨x, hx, -⟩ := listPosition_some_get? _ db.capes i hpos
        have hx2 : db.capes[i]? = some x := by rw [← List.get?_eq_getElem?]; exact hx
        have hxmem : x ∈ db.capes := mem_of_get? db.capes i x hx
        unfold CapeManager.add_tag_to_cape CapeManager.save_capes at h
        rw [hpos] at h
        by_cases hmem : t ∈ x.tags
        · have hcond : ¬ (∀ s ∈ x.tags, ¬ s = t) := fun hall => hall t hmem rfl
          simp [hw, hx2, Except.map, if_neg hcond] at h
          obtain ⟨-, h1, -⟩ := h
          subst h1
          exact tagsNodup_set db i x hdb (hdb x hxmem)
        · have hcond : ∀ s ∈ x.tags, ¬ s = t := fun s hs heq => hmem (heq ▸ hs)
          simp [hw, hx2, Except.map, if_pos hcond] at h
          obtain ⟨-, h1, -⟩ := h
          subst h1
          exact tagsNodup_set db i _ hdb
            (by simpa using nodup_append_singleton (hdb x hxmem) hmem)
      | none =>
        unfold CapeManager.add_tag_to_cape at h
        rw [hpos] at h
        simp at h
        obtain ⟨-, h1, -⟩ := h
        subst h1
        exact hdb
    · cases hpos : listPosition (fun s => s.id == id) db.capes with
      | some i =>
        unfold CapeManager.add_tag_to_cape CapeManager.save_capes at h
        rw [hpos] at h
        simp [hw, Except.map] at h
      | none =>
        unfold CapeManager.add_tag_to_cape at h
        rw [hpos] at h
        simp at h
        obtain ⟨-, h1, -⟩ := h
        subst h1
        exact hdb
  · intro id t r db2 fs2 h
    refine hwcase _ (fun hw => ?_) (fun hw => ?_)
    · cases hpos : listPosition (fun s => s.id == id) db.capes with
      | some i =>
        obtain ⟨x, hx, -⟩ := listPosition_some_get? _ db.capes i hpos
        have hx2 : db.capes[i]? = some x := by rw [← List.get?_eq_getElem?]; exact hx
        have hxmem : x ∈ db.capes := mem_of_get? db.capes i x hx
        unfold CapeManager.remove_tag_from_cape CapeManager.save_capes at h
        rw [hpos] at h
        simp [hw, hx2, Except.map] at h
        obtain ⟨-, h1, -⟩ := h
        subst h1
        exact tagsNodup_set db i _ hdb (by simpa using (hdb x hxmem).filter _)
      | none =>
        unfold CapeManager.remove_tag_from_cape at h
        rw [hpos] at h
        simp at h
        obtain ⟨-, h1, -⟩ := h
        subst h1
        exact hdb
    · cases hpos : listPosition (fun s => s.id == id) db.capes with
      | some i =>
        unfold CapeManager.remove_tag_from_cape CapeManager.save_capes at h
        rw [hpos] at h
        simp [hw, Except.map] at h
      | none =>
        unfold CapeManager.remove_tag_from_cape at h
        rw [hpos] at h
        simp at h
        obtain ⟨-, h1, -⟩ := h
        subst h1
        exact hdb

/-- Witness for the amended C9: adding tag "x" to a cape tagged ["y"] keeps the
invariant. -/
theorem C9_mutations_preserve_tagsNodup_witness :
    TagsNodup ⟨[⟨"a", "A", false, ["y", "x"], "d"⟩]⟩ :=
  (C9_mutations_preserve_tagsNodup ⟨[⟨"a", "A", false, ["y"], "d"⟩]⟩ ⟨none, false, false⟩
      (by
        intro c hc
        rw [List.mem_singleton.mp hc]
        decide)).2.2.2.1 "a" "x" (some ⟨"a", "A", false, ["y", "x"], "d"⟩)
    ⟨[⟨"a", "A", false, ["y", "x"], "d"⟩]⟩
    ⟨some (encodeCapeDatabase ⟨[⟨"a", "A", false, ["y", "x"], "d"⟩]⟩), false, false⟩ rfl

/-- C10: `remove_saved_cape id` — when at least one record has the id, it
returns `Ok(true)`, removes exactly the records with that id preserving the
relative order of the rest (`filter`), and persists; when no record has the
id, it returns `Ok(false)`, performs no write, and leaves the document
unchanged. -/
theorem C10_remove_saved_cape (id : String) (db : CapeDatabase) (fs : Fs)
    (hw : fs.writeFails = false) :
    ((∃ x ∈ db.capes, x.id = id) →
      CapeManager.remove_saved_cape id db fs =
        .ok (true, ⟨db.capes.filter (fun c => c.id != id)⟩,
          { fs with
            file := some (encodeCapeDatabase ⟨db.capes.filter (fun c => c.id != id)⟩) })) ∧
    ((∀ x ∈ db.capes, x.id ≠ id) →
      CapeManager.remove_saved_cape id db fs = .ok (false, db, fs)) := by
  constructor
  · rintro ⟨x, hx, hid⟩
    have hsub : List.Sublist (db.capes.filter (fun c => c.id != id)) db.capes :=
      List.filter_sublist _
    have hne : db.capes.filter (fun c => c.id != id) ≠ db.capes := by
      intro he
      rw [List.filter_eq_self] at he
      have hxid := he x hx
      simp [hid] at hxid
    have hlen : (db.capes.filter (fun c => c.id != id)).length < db.capes.length := by
      rcases Nat.lt_or_ge (db.capes.filter (fun c => c.id != id)).length db.capes.length with
        h | h
      · exact h
      · exact absurd (hsub.eq_of_length (Nat.le_antisymm hsub.length_le h)) hne
    simp [CapeManager.remove_saved_cape, hlen, CapeManager.save_capes, hw, Except.map]
  · intro hall
    have hfil : db.capes.filter (fun c => c.id != id) = db.capes := by
      rw [List.filter_eq_self]
      intro a ha
      simpa using hall a ha
    simp [CapeManager.remove_saved_cape, hfil]

/-- Witness for C10: a present id is removed with `Ok(true)`; an absent id is a
no-op with `Ok(false)`. -/
theorem C10_remove_saved_cape_witness :
    CapeManager.remove_saved_cape "a"
      ⟨[⟨"a", "A", false, [], "d"⟩, ⟨"b", "B", false, [], "d"⟩]⟩ ⟨none, false, false⟩ =
      .ok (true, ⟨[⟨"b", "B", false, [], "d"⟩]⟩,
        ⟨some (encodeCapeDatabase ⟨[⟨"b", "B", false, [], "d"⟩]⟩), false, false⟩) ∧
    CapeManager.remove_saved_cape "z" ⟨[⟨"a", "A", false, [], "d"⟩]⟩ ⟨none, false, false⟩ =
      .ok (false, ⟨[⟨"a", "A", false, [], "d"⟩]⟩, ⟨none, false, false⟩) :=
  ⟨(C10_remove_saved_cape "a"
      ⟨[⟨"a", "A", false, [], "d"⟩, ⟨"b", "B", false, [], "d"⟩]⟩ ⟨none, false, false⟩ rfl).1
      ⟨⟨"a", "A", false, [], "d"⟩, by decide, rfl⟩,
   (C10_remove_saved_cape "z" ⟨[⟨"a", "A", false, [], "d"⟩]⟩ ⟨none, false, false⟩ rfl).2
      (by decide)⟩
